import Mathlib

/-
Shallow embedding of the adaptive interpolation/binary searcher of
`interpolation_search.py` (class `ArraySearcher`), together with proofs of
the specified properties.

Machine model notes:
- Python list indexing `a[i]` supports negative indices (`a[i]` is `a[len(a)+i]`
  for `-len(a) <= i < 0`) and raises `IndexError` otherwise; `pyGet` models this.
- Python `//` on integers is floor division, modelled by `Int.fdiv`.
- Python `/` on integers produces an exact small-integer ratio here; it is
  modelled exactly in `ℚ` (the elimination fractions and the threshold are
  only ever compared, and the comparisons in the reachable range are exact).
- The `while` loop is modelled with explicit fuel: `Outcome.timeout` means the
  fuel ran out, i.e. the Python loop is still running after that many
  iterations.
- The `verbose` printing is a diagnostic side channel and is not modelled.
-/

namespace InterpolationSearch

/-- Step counters of one `search` call: `self.search_count`,
`self.interpolation_count`, `self.binary_count`. -/
structure Counters where
  search_count : Nat
  interpolation_count : Nat
  binary_count : Nat
  deriving DecidableEq, Repr

/-- The search mode strings `'interpolation'` / `'binary'` used for a single
guess. -/
inductive Mode where
  | interpolation
  | binary
  deriving DecidableEq, Repr

/-- The `search_strategy` argument strings `'mixed'` / `'interpolation'` /
`'binary'`. -/
inductive Strategy where
  | mixed
  | interpolation
  | binary
  deriving DecidableEq, Repr

/-- Python exceptions that `search` can raise: the explicit `ValueError` for a
query outside the array range, `IndexError` from list indexing, and
`ZeroDivisionError` from `_calc_array_elimination`. -/
inductive SearchErr where
  | outOfRange
  | indexError
  | zeroDivisionError
  deriving DecidableEq, Repr

/-- Result of one `search` call: normal return with the found index, a raised
exception, or fuel exhaustion (the Python loop would still be running).
Each outcome carries the values of the step counters at that point. -/
inductive Outcome where
  | ok (idx : Int) (c : Counters)
  | err (e : SearchErr) (c : Counters)
  | timeout (c : Counters)
  deriving DecidableEq, Repr

/-- Python list indexing `arr[i]`, including negative-index wrap-around;
`none` models `IndexError`. -/
def pyGet (arr : List Int) (i : Int) : Option Int :=
  if 0 ≤ i then arr.get? i.toNat
  else if 0 ≤ i + arr.length then arr.get? (i + arr.length).toNat
  else none

/-- Index formula of `ArraySearcher._idx_guess` (lines 78-83): interpolation
uses `((idx_top - idx_bottom) * (query_val - arr[idx_bottom])) //
(arr[idx_top] - arr[idx_bottom]) + idx_bottom`, binary uses
`idx_bottom + (idx_top - idx_bottom) // 2`; `//` is floor division. -/
def idx_guess_val (top_val bottom_val query_val idx_top idx_bottom : Int)
    (search_mode : Mode) : Int :=
  match search_mode with
  | .interpolation =>
      ((idx_top - idx_bottom) * (query_val - bottom_val)).fdiv
        (top_val - bottom_val) + idx_bottom
  | .binary => idx_bottom + (idx_top - idx_bottom).fdiv 2

/-- Counter increments performed by `ArraySearcher._idx_guess`: the per-mode
counter and `search_count` each go up by one. -/
def bump_counters (c : Counters) (search_mode : Mode) : Counters :=
  match search_mode with
  | .interpolation =>
      ⟨c.search_count + 1, c.interpolation_count + 1, c.binary_count⟩
  | .binary =>
      ⟨c.search_count + 1, c.interpolation_count, c.binary_count + 1⟩

/-- `ArraySearcher._calc_array_elimination` with `mode='low'` (line 60):
`((idx_guess + 1) - idx_bottom) / ((idx_top + 1) - idx_bottom)`. -/
def calc_array_elimination_low (idx_guess idx_top idx_bottom : Int) : ℚ :=
  (((idx_guess : ℚ) + 1) - (idx_bottom : ℚ)) /
    (((idx_top : ℚ) + 1) - (idx_bottom : ℚ))

/-- `ArraySearcher._calc_array_elimination` with `mode='high'` (line 62):
`(idx_top - (idx_guess - 1)) / ((idx_top + 1) - idx_bottom)`. -/
def calc_array_elimination_high (idx_guess idx_top idx_bottom : Int) : ℚ :=
  ((idx_top : ℚ) - ((idx_guess : ℚ) - 1)) /
    (((idx_top : ℚ) + 1) - (idx_bottom : ℚ))

/-- `ArraySearcher._set_search_mode` (lines 89-100): after a binary step
always return to interpolation; after an interpolation step switch to binary
exactly when the elimination fraction is below the threshold. -/
def set_search_mode (interpolation_threshold : ℚ)
    (array_elimination_fraction : ℚ) (search_mode : Mode) : Mode :=
  match search_mode with
  | .binary => .interpolation
  | .interpolation =>
      if array_elimination_fraction < interpolation_threshold then .binary
      else .interpolation

/-- Result of one iteration of the `while` loop of `search`: either the loop
ends (returning or raising), or it continues with updated bounds, mode and
counters. -/
inductive StepOut where
  | done (o : Outcome)
  | next (idx_bottom idx_top : Int) (search_mode : Mode) (c : Counters)
  deriving DecidableEq, Repr

/-- One iteration of the `while` loop of `ArraySearcher.search`
(lines 150-179): the degenerate-window check, the index guess (with counter
increments), the three-way comparison at the guess, the elimination-fraction
computation on the pre-update bounds, the bound update, and (under the mixed
strategy only) the mode switch. -/
def searchStep (arr : List Int) (query_val : Int)
    (interpolation_threshold : ℚ) (search_strategy : Strategy)
    (idx_bottom idx_top : Int) (search_mode : Mode) (c : Counters) : StepOut :=
  match pyGet arr idx_top, pyGet arr idx_bottom with
  | some top_val, some bottom_val =>
    if top_val = bottom_val then
      .done (.ok idx_bottom c)
    else
      let c1 := bump_counters c search_mode
      let idx_guess :=
        idx_guess_val top_val bottom_val query_val idx_top idx_bottom search_mode
      match pyGet arr idx_guess with
      | some guess_val =>
        if guess_val = query_val then
          .done (.ok idx_guess c1)
        else if guess_val < query_val then
          if (idx_top + 1) - idx_bottom = 0 then
            .done (.err .zeroDivisionError c1)
          else
            let frac := calc_array_elimination_low idx_guess idx_top idx_bottom
            let m1 :=
              if search_strategy = Strategy.mixed then
                set_search_mode interpolation_threshold frac search_mode
              else search_mode
            .next (idx_guess + 1) idx_top m1 c1
        else
          if (idx_top + 1) - idx_bottom = 0 then
            .done (.err .zeroDivisionError c1)
          else
            let frac := calc_array_elimination_high idx_guess idx_top idx_bottom
            let m1 :=
              if search_strategy = Strategy.mixed then
                set_search_mode interpolation_threshold frac search_mode
              else search_mode
            .next idx_bottom (idx_guess - 1) m1 c1
      | none => .done (.err .indexError c1)
  | _, _ => .done (.err .indexError c)

/-- The `while` loop of `ArraySearcher.search`, iterated with explicit fuel. -/
def searchLoop (arr : List Int) (query_val : Int)
    (interpolation_threshold : ℚ) (search_strategy : Strategy) :
    Nat → Int → Int → Mode → Counters → Outcome
  | 0, _, _, _, c => .timeout c
  | fuel + 1, idx_bottom, idx_top, search_mode, c =>
    match searchStep arr query_val interpolation_threshold search_strategy
        idx_bottom idx_top search_mode c with
    | .done o => o
    | .next b t m c1 =>
        searchLoop arr query_val interpolation_threshold search_strategy
          fuel b t m c1

/-- Body of `ArraySearcher.search` (lines 102-183): counter initialisation,
initial bounds, the out-of-range check against `arr[0]` and `arr[-1 + len]`,
initial mode selection from the strategy, then the loop.  (The dead local
reassignment `interpolation_threshold = 1.0` on the binary branch is
observationally inert: `_set_search_mode` is only called under the mixed
strategy and reads the untouched instance attribute.) -/
def searchBody (arr : List Int) (query_val : Int)
    (interpolation_threshold : ℚ) (search_strategy : Strategy)
    (fuel : Nat) : Outcome :=
  let c0 : Counters := ⟨0, 0, 0⟩
  let idx_top : Int := (arr.length : Int) - 1
  let idx_bottom : Int := 0
  match pyGet arr idx_bottom, pyGet arr idx_top with
  | some bottom_val, some top_val =>
    if query_val ≥ bottom_val ∧ query_val ≤ top_val then
      let search_mode :=
        match search_strategy with
        | .binary => Mode.binary
        | _ => Mode.interpolation
      searchLoop arr query_val interpolation_threshold search_strategy
        fuel idx_bottom idx_top search_mode c0
    else .err .outOfRange c0
  | _, _ => .err .indexError c0

/-- Post-search instance attributes of `ArraySearcher` (docstring
lines 15-22). -/
structure SearchAttrs where
  query_val : Int
  search_strategy : Strategy
  interpolation_threshold : ℚ
  query_val_idx : Option Int
  search_count : Nat
  interpolation_count : Nat
  binary_count : Nat
  deriving DecidableEq, Repr

/-- The `ArraySearcher` instance: the sorted array plus the mutable
post-search attributes (absent before the first search). -/
structure ArraySearcher where
  array : List Int
  last_search : Option SearchAttrs
  deriving DecidableEq, Repr

/-- `ArraySearcher.__init__` (line 30): `self.array = sorted(array)`.
Python `sorted` is a stable ascending sort, modelled by insertion sort
(stable sorts by the same total order agree pointwise). -/
def ArraySearcher.init (input : List Int) : ArraySearcher :=
  ⟨List.insertionSort (· ≤ ·) input, none⟩

/-- Counter values carried by an outcome (the values of the counter
attributes once the call ends or raises). -/
def Outcome.counters : Outcome → Counters
  | .ok _ c => c
  | .err _ c => c
  | .timeout c => c

/-- Value of `self.query_val_idx` once the call ends: the found index on
normal return, `None` when the call raised. -/
def Outcome.foundIdx : Outcome → Option Int
  | .ok i _ => some i
  | .err _ _ => none
  | .timeout _ => none

/-- `ArraySearcher.search` as a method: runs the search body and records the
post-search attributes, leaving `self.array` untouched. -/
def ArraySearcher.search (s : ArraySearcher) (query_val : Int)
    (interpolation_threshold : ℚ) (search_strategy : Strategy)
    (fuel : Nat) : ArraySearcher × Outcome :=
  let out := searchBody s.array query_val interpolation_threshold
    search_strategy fuel
  (⟨s.array,
    some ⟨query_val, search_strategy, interpolation_threshold, out.foundIdx,
      out.counters.search_count, out.counters.interpolation_count,
      out.counters.binary_count⟩⟩,
   out)

/-- The list of (strategy, threshold) runs performed by
`ArraySearcher.compare_methods` (lines 201-204): interpolation, then mixed
(once with the default threshold, or once per supplied threshold), then
binary.  The string labels of `performance_dict` are abstracted as the
(strategy, optional threshold) pair that generates them. -/
def compareRuns (mixed_thresholds : Option (List ℚ)) :
    List (Strategy × Option ℚ) :=
  [(Strategy.interpolation, none)] ++
    (match mixed_thresholds with
     | none => [(Strategy.mixed, none)]
     | some ts => ts.map fun t => (Strategy.mixed, some t)) ++
    [(Strategy.binary, none)]

/-- The loop of `compare_methods` over the runs: each run calls `search`
(default threshold `0.25` when none is supplied) and records
`self.search_count`.  A raised exception propagates (the flag is `false` and
the remaining runs are skipped); a timeout is treated the same way, since the
Python call would never have returned. -/
def runComparisons (query_val : Int) (fuel : Nat) :
    List (Strategy × Option ℚ) → ArraySearcher →
    ArraySearcher × List (Strategy × Option ℚ × Nat) × Bool
  | [], s => (s, [], true)
  | (strat, th) :: rest, s =>
    let r := ArraySearcher.search s query_val (th.getD (1/4)) strat fuel
    match r.2 with
    | Outcome.ok _ c =>
        let rr := runComparisons query_val fuel rest r.1
        (rr.1, (strat, th, c.search_count) :: rr.2.1, rr.2.2)
    | _ => (r.1, [], false)

/-- `ArraySearcher.compare_methods` (lines 185-217). -/
def ArraySearcher.compare_methods (s : ArraySearcher) (query_val : Int)
    (mixed_thresholds : Option (List ℚ)) (fuel : Nat) :
    ArraySearcher × List (Strategy × Option ℚ × Nat) × Bool :=
  runComparisons query_val fuel (compareRuns mixed_thresholds) s

/-- Loop invariant of `search` for a query value present in the window:
the bounds are genuine indices and some index in the closed window holds the
query value. -/
def SearchInv (arr : List Int) (query_val : Int) (idx_bottom idx_top : Int) :
    Prop :=
  0 ≤ idx_bottom ∧ idx_top < (arr.length : Int) ∧
    ∃ k : Nat, idx_bottom ≤ (k : Int) ∧ (k : Int) ≤ idx_top ∧
      arr.get? k = some query_val

/-! Helper lemmas about the embedding. -/

/-- Valid non-negative indices read the list directly. -/
lemma pyGet_eq_some_get (arr : List Int) (i : Int) (h0 : 0 ≤ i)
    (h1 : i.toNat < arr.length) :
    pyGet arr i = some (arr.get ⟨i.toNat, h1⟩) := by
  unfold pyGet
  rw [if_pos h0, List.get?_eq_get h1]

/-- Sorted lists are monotone in the index. -/
lemma sorted_get_le {arr : List Int} (hs : List.Sorted (· ≤ ·) arr)
    {i j : Nat} (hij : i ≤ j) (hj : j < arr.length) :
    arr.get ⟨i, lt_of_le_of_lt hij hj⟩ ≤ arr.get ⟨j, hj⟩ :=
  hs.rel_get_of_le hij

/-- Both guess formulas stay inside the current window, provided the window
values bracket the query value. -/
lemma idx_guess_val_bounds (top_val bottom_val query_val idx_top idx_bottom : Int)
    (mode : Mode) (hbt : idx_bottom ≤ idx_top) (hvals : bottom_val < top_val)
    (hq1 : bottom_val ≤ query_val) (hq2 : query_val ≤ top_val) :
    idx_bottom ≤ idx_guess_val top_val bottom_val query_val idx_top idx_bottom mode ∧
      idx_guess_val top_val bottom_val query_val idx_top idx_bottom mode ≤ idx_top := by
  cases mode with
  | interpolation =>
    have hd : (0 : Int) < top_val - bottom_val := by omega
    simp only [idx_guess_val]
    rw [Int.fdiv_eq_ediv _ hd.le]
    have hnn : 0 ≤ (idx_top - idx_bottom) * (query_val - bottom_val) / (top_val - bottom_val) :=
      Int.ediv_nonneg (mul_nonneg (by omega) (by omega)) hd.le
    have hmul : (idx_top - idx_bottom) * (query_val - bottom_val) ≤
        (idx_top - idx_bottom) * (top_val - bottom_val) :=
      mul_le_mul_of_nonneg_left (by omega) (by omega)
    have hup : (idx_top - idx_bottom) * (query_val - bottom_val) / (top_val - bottom_val) ≤
        idx_top - idx_bottom := by
      have h1 := Int.ediv_le_ediv hd hmul
      rwa [Int.mul_ediv_cancel _ hd.ne'] at h1
    constructor
    · linarith
    · linarith
  | binary =>
    simp only [idx_guess_val]
    rw [Int.fdiv_eq_ediv _ (by norm_num : (0:Int) ≤ 2)]
    have hnn : 0 ≤ (idx_top - idx_bottom) / 2 :=
      Int.ediv_nonneg (by omega) (by norm_num)
    have hup : (idx_top - idx_bottom) / 2 ≤ idx_top - idx_bottom :=
      Int.ediv_le_self _ (by omega)
    constructor
    · linarith
    · linarith

/-- One-iteration specification of the loop body under the invariant: the
iteration either ends with a correct index (a guess is counted only when the
window is non-degenerate), or continues with the invariant restored, a
strictly smaller window, the counters bumped once, the mode untouched unless
the strategy is mixed, and (for a binary guess) the window at least halved. -/
lemma searchStep_spec (arr : List Int) (query_val : Int) (th : ℚ)
    (strat : Strategy) (idx_bottom idx_top : Int) (mode : Mode) (c : Counters)
    (hs : List.Sorted (· ≤ ·) arr)
    (hinv : SearchInv arr query_val idx_bottom idx_top) :
    (∃ i c1, searchStep arr query_val th strat idx_bottom idx_top mode c =
        .done (.ok i c1) ∧
      0 ≤ i ∧ i < (arr.length : Int) ∧ pyGet arr i = some query_val ∧
      (c1 = c ∨ (c1 = bump_counters c mode ∧ idx_bottom < idx_top))) ∨
    (∃ b1 t1 m1, searchStep arr query_val th strat idx_bottom idx_top mode c =
        .next b1 t1 m1 (bump_counters c mode) ∧
      SearchInv arr query_val b1 t1 ∧ t1 - b1 < idx_top - idx_bottom ∧
      idx_bottom < idx_top ∧
      (strat ≠ Strategy.mixed → m1 = mode) ∧
      (mode = Mode.binary →
        (t1 - b1).toNat + 1 ≤ ((idx_top - idx_bottom).toNat + 1) / 2)) := by
  obtain ⟨hb0, htn, k, hk1, hk2, hkget⟩ := hinv
  obtain ⟨hklen, hkval⟩ := List.get?_eq_some.mp hkget
  have hbt : idx_bottom ≤ idx_top := le_trans hk1 hk2
  have ht0 : (0 : Int) ≤ idx_top := le_trans hb0 hbt
  have hbN : idx_bottom.toNat < arr.length := by omega
  have htN : idx_top.toNat < arr.length := by omega
  set bottom_val := arr.get ⟨idx_bottom.toNat, hbN⟩ with hbv
  set top_val := arr.get ⟨idx_top.toNat, htN⟩ with htv
  have hBot : pyGet arr idx_bottom = some bottom_val := pyGet_eq_some_get arr _ hb0 hbN
  have hTop : pyGet arr idx_top = some top_val := pyGet_eq_some_get arr _ ht0 htN
  have hbk : idx_bottom.toNat ≤ k := by omega
  have hkt : k ≤ idx_top.toNat := by omega
  have hbotq : bottom_val ≤ query_val := by
    have := sorted_get_le hs hbk hklen
    rwa [hkval] at this
  have htopq : query_val ≤ top_val := by
    have := sorted_get_le hs hkt htN
    rwa [hkval] at this
  by_cases hdeg : top_val = bottom_val
  · -- degenerate window: every value in the window equals the query value
    left
    refine ⟨idx_bottom, c, ?_, hb0, by omega, ?_, Or.inl rfl⟩
    · simp only [searchStep, hTop, hBot, if_pos hdeg]
    · have hqb : bottom_val = query_val := le_antisymm hbotq (hdeg ▸ htopq)
      rw [hBot, hqb]
  · have hlt : bottom_val < top_val :=
      lt_of_le_of_ne (by simpa [hbv, htv] using sorted_get_le hs (by omega : idx_bottom.toNat ≤ idx_top.toNat) htN) (Ne.symm hdeg)
    have hbtlt : idx_bottom < idx_top := by
      rcases lt_or_eq_of_le hbt with h | h
      · exact h
      · exfalso
        apply hdeg
        simp [hbv, htv, h]
    obtain ⟨hg1, hg2⟩ := idx_guess_val_bounds top_val bottom_val query_val
      idx_top idx_bottom mode hbt hlt hbotq htopq
    set g := idx_guess_val top_val bottom_val query_val idx_top idx_bottom mode with hgdef
    have hg0 : (0 : Int) ≤ g := le_trans hb0 hg1
    have hgN : g.toNat < arr.length := by omega
    set guess_val := arr.get ⟨g.toNat, hgN⟩ with hgv
    have hG : pyGet arr g = some guess_val := pyGet_eq_some_get arr _ hg0 hgN
    have hzero : ¬((idx_top + 1) - idx_bottom = 0) := by omega
    by_cases hfound : guess_val = query_val
    · -- the guess hits the query value
      left
      refine ⟨g, bump_counters c mode, ?_, hg0, by omega, ?_, Or.inr ⟨rfl, hbtlt⟩⟩
      · simp only [searchStep, hTop, hBot, if_neg hdeg, hG, if_pos hfound]
      · rw [hG, hfound]
    · by_cases hlow : guess_val < query_val
      · -- the guess is too low: the window becomes [g+1, idx_top]
        right
        have hkg : g.toNat < k := by
          by_contra hcon
          push_neg at hcon
          have := sorted_get_le hs hcon hgN
          rw [hkval] at this
          omega
        refine ⟨g + 1, idx_top,
          (if strat = Strategy.mixed then
            set_search_mode th (calc_array_elimination_low g idx_top idx_bottom) mode
          else mode), ?_, ?_, by omega, hbtlt, ?_, ?_⟩
        · simp only [searchStep, hTop, hBot, if_neg hdeg, hG, if_neg hfound,
            if_pos hlow, if_neg hzero]
        · exact ⟨by omega, htn, k, by omega, hk2, hkget⟩
        · intro h
          rw [if_neg h]
        · intro hm
          subst hm
          simp only [idx_guess_val] at hgdef
          rw [Int.fdiv_eq_ediv _ (by norm_num : (0:Int) ≤ 2)] at hgdef
          omega
      · -- the guess is too high: the window becomes [idx_bottom, g-1]
        right
        have hhigh : query_val < guess_val := by
          rcases lt_trichotomy guess_val query_val with h | h | h
          · exact absurd h hlow
          · exact absurd h hfound
          · exact h
        have hkg : k < g.toNat := by
          by_contra hcon
          push_neg at hcon
          have := sorted_get_le hs hcon hklen
          rw [hkval] at this
          omega
        refine ⟨idx_bottom, g - 1,
          (if strat = Strategy.mixed then
            set_search_mode th (calc_array_elimination_high g idx_top idx_bottom) mode
          else mode), ?_, ?_, by omega, hbtlt, ?_, ?_⟩
        · simp only [searchStep, hTop, hBot, if_neg hdeg, hG, if_neg hfound,
            if_neg hlow, if_neg hzero]
        · exact ⟨hb0, by omega, k, hk1, by omega, hkget⟩
        · intro h
          rw [if_neg h]
        · intro hm
          subst hm
          simp only [idx_guess_val] at hgdef
          rw [Int.fdiv_eq_ediv _ (by norm_num : (0:Int) ≤ 2)] at hgdef
          omega

/-- Under the invariant, the loop returns a correct index once the fuel
exceeds the window width. -/
lemma searchLoop_ok (arr : List Int) (query_val : Int) (th : ℚ)
    (strat : Strategy) (hs : List.Sorted (· ≤ ·) arr) :
    ∀ (fuel : Nat) (idx_bottom idx_top : Int) (mode : Mode) (c : Counters),
      SearchInv arr query_val idx_bottom idx_top →
      idx_top - idx_bottom < (fuel : Int) →
      ∃ i c1, searchLoop arr query_val th strat fuel idx_bottom idx_top mode c =
          .ok i c1 ∧
        0 ≤ i ∧ i < (arr.length : Int) ∧ pyGet arr i = some query_val := by
  intro fuel
  induction fuel with
  | zero =>
    intro b t m c hinv hf
    exfalso
    obtain ⟨_, _, k, hk1, hk2, _⟩ := hinv
    have : b ≤ t := le_trans hk1 hk2
    push_cast at hf
    omega
  | succ fuel ih =>
    intro b t m c hinv hf
    rcases searchStep_spec arr query_val th strat b t m c hs hinv with
      ⟨i, c1, hstep, h0, h1, hq, _⟩ | ⟨b1, t1, m1, hstep, hinv1, hwidth, _, _, _⟩
    · exact ⟨i, c1, by simp only [searchLoop, hstep], h0, h1, hq⟩
    · obtain ⟨i, c1, hrun, h0, h1, hq⟩ := ih b1 t1 m1 (bump_counters c m) hinv1
        (by push_cast at hf ⊢; omega)
      exact ⟨i, c1, by simp only [searchLoop, hstep]; exact hrun, h0, h1, hq⟩

/-- Under the binary strategy the loop returns with at most
`clog 2 (width + 1)` additional guesses. -/
lemma searchLoop_binary_count (arr : List Int) (query_val : Int) (th : ℚ)
    (hs : List.Sorted (· ≤ ·) arr) :
    ∀ (fuel : Nat) (idx_bottom idx_top : Int) (c : Counters),
      SearchInv arr query_val idx_bottom idx_top →
      idx_top - idx_bottom < (fuel : Int) →
      ∃ i c1, searchLoop arr query_val th Strategy.binary fuel idx_bottom
          idx_top Mode.binary c = .ok i c1 ∧
        c1.search_count ≤ c.search_count +
          Nat.clog 2 ((idx_top - idx_bottom).toNat + 1) := by
  intro fuel
  induction fuel with
  | zero =>
    intro b t c hinv hf
    exfalso
    obtain ⟨_, _, k, hk1, hk2, _⟩ := hinv
    have : b ≤ t := le_trans hk1 hk2
    push_cast at hf
    omega
  | succ fuel ih =>
    intro b t c hinv hf
    rcases searchStep_spec arr query_val th Strategy.binary b t Mode.binary c
        hs hinv with
      ⟨i, c1, hstep, _, _, _, hc⟩ | ⟨b1, t1, m1, hstep, hinv1, hwidth, hbtlt, hmode, hhalf⟩
    · refine ⟨i, c1, by simp only [searchLoop, hstep], ?_⟩
      rcases hc with rfl | ⟨rfl, hlt⟩
      · omega
      · have hpos : 0 < Nat.clog 2 ((t - b).toNat + 1) :=
          Nat.clog_pos (by norm_num) (by omega)
        simp only [bump_counters]
        omega
    · have hm1 : m1 = Mode.binary := hmode (by simp)
      subst hm1
      obtain ⟨i, c1, hrun, hcount⟩ := ih b1 t1 (bump_counters c Mode.binary)
        hinv1 (by push_cast at hf ⊢; omega)
      refine ⟨i, c1, by simp only [searchLoop, hstep]; exact hrun, ?_⟩
      have hhalf1 := hhalf rfl
      set w := (t - b).toNat with hw
      set w1 := (t1 - b1).toNat with hw1
      have hclog1 : Nat.clog 2 (w + 1) = Nat.clog 2 ((w + 1 + 1) / 2) + 1 :=
        Nat.clog_of_two_le (by norm_num) (by omega)
      have hclog2 : Nat.clog 2 (w1 + 1) ≤ Nat.clog 2 ((w + 1 + 1) / 2) :=
        Nat.clog_mono_right 2 (by omega)
      simp only [bump_counters] at hcount
      omega

/-- The loop never raises the out-of-range `ValueError`: that error is only
raised by the pre-loop range check. -/
lemma searchLoop_no_outOfRange (arr : List Int) (query_val : Int) (th : ℚ)
    (strat : Strategy) :
    ∀ (fuel : Nat) (idx_bottom idx_top : Int) (mode : Mode) (c c1 : Counters),
      searchLoop arr query_val th strat fuel idx_bottom idx_top mode c ≠
        .err .outOfRange c1 := by
  intro fuel
  induction fuel with
  | zero =>
    intro b t m c c1
    simp [searchLoop]
  | succ fuel ih =>
    intro b t m c c1
    simp only [searchLoop]
    rcases hstep : searchStep arr query_val th strat b t m c with o | ⟨b1, t1, m1, c2⟩
    · -- the iteration ended: check every terminal outcome of the body
      dsimp only
      unfold searchStep at hstep
      dsimp only at hstep
      repeat' split at hstep
      all_goals
        first
        | (injection hstep with h2; subst h2; simp)
        | exact absurd hstep (by simp)
    · dsimp only
      exact ih b1 t1 m1 c2 c1

/-- Non-negative indices just defer to ordinary list lookup. -/
lemma pyGet_eq_get? (arr : List Int) (i : Int) (h0 : 0 ≤ i) :
    pyGet arr i = arr.get? i.toNat := by
  unfold pyGet
  rw [if_pos h0]

/-- When the query value passes the range check, `search` reduces to the loop
started on the full window with zeroed counters. -/
lemma searchBody_eq_loop (arr : List Int) (query_val : Int) (th : ℚ)
    (strat : Strategy) (fuel : Nat) (a0 aL : Int)
    (h0 : arr.get? 0 = some a0) (hL : arr.get? (arr.length - 1) = some aL)
    (hlo : a0 ≤ query_val) (hhi : query_val ≤ aL) :
    searchBody arr query_val th strat fuel =
      searchLoop arr query_val th strat fuel 0 ((arr.length : Int) - 1)
        (match strat with
         | .binary => Mode.binary
         | _ => Mode.interpolation) ⟨0, 0, 0⟩ := by
  obtain ⟨hlen, -⟩ := List.get?_eq_some.mp h0
  have hpy0 : pyGet arr 0 = some a0 := by
    rw [pyGet_eq_get? arr 0 le_rfl]
    exact h0
  have hpyL : pyGet arr ((arr.length : Int) - 1) = some aL := by
    rw [pyGet_eq_get? arr _ (by omega)]
    rw [show ((arr.length : Int) - 1).toNat = arr.length - 1 by omega]
    exact hL
  simp only [searchBody, hpy0, hpyL, if_pos (And.intro hlo hhi)]

/-- C1: for every ascending-sorted sequence and every query value present in
it, `search` ends normally and returns a valid index holding the query value,
whatever the strategy (so in particular all three strategies agree that the
value is found, each at some valid index). -/
theorem C1_all_strategies_find_present_value (arr : List Int)
    (query_val : Int) (th : ℚ) (strat : Strategy)
    (hs : List.Sorted (· ≤ ·) arr) (hmem : query_val ∈ arr) :
    ∃ i c, searchBody arr query_val th strat arr.length = .ok i c ∧
      0 ≤ i ∧ i < (arr.length : Int) ∧ pyGet arr i = some query_val := by
  obtain ⟨⟨k, hk⟩, hkq⟩ := List.mem_iff_get.mp hmem
  have h0 : 0 < arr.length := by omega
  have hL : arr.length - 1 < arr.length := by omega
  have hlo : arr.get ⟨0, h0⟩ ≤ query_val := by
    rw [← hkq]
    exact sorted_get_le hs (Nat.zero_le k) hk
  have hhi : query_val ≤ arr.get ⟨arr.length - 1, hL⟩ := by
    rw [← hkq]
    exact sorted_get_le hs (by omega) hL
  rw [searchBody_eq_loop arr query_val th strat arr.length _ _
    (List.get?_eq_get h0) (List.get?_eq_get hL) hlo hhi]
  exact searchLoop_ok arr query_val th strat hs arr.length 0
    ((arr.length : Int) - 1) _ ⟨0, 0, 0⟩
    ⟨le_rfl, by omega, k, by omega, by omega,
      by rw [List.get?_eq_get hk, hkq]⟩ (by omega)

/-- C1 witness: the searcher finds 7 in [1,3,5,7,9,11] under the mixed
strategy at a valid index holding 7. -/
theorem C1_witness :
    ∃ i c, searchBody [1, 3, 5, 7, 9, 11] 7 (1/4) Strategy.mixed 6 =
        .ok i c ∧
      0 ≤ i ∧ i < 6 ∧ pyGet [1, 3, 5, 7, 9, 11] i = some 7 :=
  C1_all_strategies_find_present_value [1, 3, 5, 7, 9, 11] 7 (1/4)
    Strategy.mixed (by decide) (by decide)

/-- C3 counterexample: on the sorted array [1,5,6] with the in-range query
value 2 (1 ≤ 2 ≤ 6) and the interpolation strategy, the third loop iteration
maps the reachable state (bottom 1, top -3) to itself: the window width does
not strictly decrease and the loop never terminates (the run is still going
after any amount of fuel; shown here after 5 iterations).  The interpolation
guess -2 reads the array through Python negative-index wrap-around, sending
the bounds outside the window invariant. -/
theorem C3_counterexample :
    List.Sorted (· ≤ ·) [1, 5, 6] ∧ (1 : Int) ≤ 2 ∧ (2 : Int) ≤ 6 ∧
    searchStep [1, 5, 6] 2 (1/4) Strategy.interpolation 0 2
        Mode.interpolation ⟨0, 0, 0⟩ =
      .next 1 2 Mode.interpolation ⟨1, 1, 0⟩ ∧
    searchStep [1, 5, 6] 2 (1/4) Strategy.interpolation 1 2
        Mode.interpolation ⟨1, 1, 0⟩ =
      .next 1 (-3) Mode.interpolation ⟨2, 2, 0⟩ ∧
    searchStep [1, 5, 6] 2 (1/4) Strategy.interpolation 1 (-3)
        Mode.interpolation ⟨2, 2, 0⟩ =
      .next 1 (-3) Mode.interpolation ⟨3, 3, 0⟩ ∧
    searchBody [1, 5, 6] 2 (1/4) Strategy.interpolation 5 =
      .timeout ⟨5, 5, 0⟩ := by
  decide

/-- C3 amended: for every query value PRESENT in the sorted sequence (rather
than merely inside its range), the loop terminates for every threshold and
strategy, and every continuing iteration from an invariant-satisfying state
strictly shrinks the window width while preserving the invariant. -/
theorem C3_amended_termination_and_shrink (arr : List Int) (query_val : Int)
    (th : ℚ) (strat : Strategy) (hs : List.Sorted (· ≤ ·) arr)
    (hmem : query_val ∈ arr) :
    (∃ i c, searchBody arr query_val th strat arr.length = .ok i c) ∧
    (∀ b t m c b1 t1 m1 c1, SearchInv arr query_val b t →
      searchStep arr query_val th strat b t m c = .next b1 t1 m1 c1 →
      t1 - b1 < t - b ∧ SearchInv arr query_val b1 t1) := by
  constructor
  · obtain ⟨⟨k, hk⟩, hkq⟩ := List.mem_iff_get.mp hmem
    have h0 : 0 < arr.length := by omega
    have hL : arr.length - 1 < arr.length := by omega
    have hlo : arr.get ⟨0, h0⟩ ≤ query_val := by
      rw [← hkq]
      exact sorted_get_le hs (Nat.zero_le k) hk
    have hhi : query_val ≤ arr.get ⟨arr.length - 1, hL⟩ := by
      rw [← hkq]
      exact sorted_get_le hs (by omega) hL
    rw [searchBody_eq_loop arr query_val th strat arr.length _ _
      (List.get?_eq_get h0) (List.get?_eq_get hL) hlo hhi]
    obtain ⟨i, c1, hrun, -, -, -⟩ := searchLoop_ok arr query_val th strat hs
      arr.length 0 ((arr.length : Int) - 1) _ ⟨0, 0, 0⟩
      ⟨le_rfl, by omega, k, by omega, by omega,
        by rw [List.get?_eq_get hk, hkq]⟩ (by omega)
    exact ⟨i, c1, hrun⟩
  · intro b t m c b1 t1 m1 c1 hinv hstep
    rcases searchStep_spec arr query_val th strat b t m c hs hinv with
      ⟨i, c2, hdone, -⟩ | ⟨b2, t2, m2, hnext, hinv2, hw, -, -, -⟩
    · rw [hdone] at hstep
      cases hstep
    · rw [hnext] at hstep
      injection hstep with e1 e2 e3 e4
      subst e1
      subst e2
      exact ⟨hw, hinv2⟩

/-- C3 witness for the amended statement: searching for the present value 2
in [1,2,3] terminates under the binary strategy. -/
theorem C3_witness :
    (∃ i c, searchBody [1, 2, 3] 2 (1/4) Strategy.binary 3 = .ok i c) ∧
    (∀ b t m c b1 t1 m1 c1, SearchInv [1, 2, 3] 2 b t →
      searchStep [1, 2, 3] 2 (1/4) Strategy.binary b t m c =
        .next b1 t1 m1 c1 →
      t1 - b1 < t - b ∧ SearchInv [1, 2, 3] 2 b1 t1) :=
  C3_amended_termination_and_shrink [1, 2, 3] 2 (1/4) Strategy.binary
    (by decide) (by decide)

/-- C4: under the binary strategy, searching for a present value in a sorted
sequence ends normally with at most `⌈log2 (length)⌉` guesses counted in
`search_count`. -/
theorem C4_binary_step_count_bound (arr : List Int) (query_val : Int)
    (th : ℚ) (hs : List.Sorted (· ≤ ·) arr) (hmem : query_val ∈ arr) :
    ∃ i c, searchBody arr query_val th Strategy.binary arr.length =
        .ok i c ∧
      c.search_count ≤ Nat.clog 2 arr.length := by
  obtain ⟨⟨k, hk⟩, hkq⟩ := List.mem_iff_get.mp hmem
  have h0 : 0 < arr.length := by omega
  have hL : arr.length - 1 < arr.length := by omega
  have hlo : arr.get ⟨0, h0⟩ ≤ query_val := by
    rw [← hkq]
    exact sorted_get_le hs (Nat.zero_le k) hk
  have hhi : query_val ≤ arr.get ⟨arr.length - 1, hL⟩ := by
    rw [← hkq]
    exact sorted_get_le hs (by omega) hL
  rw [searchBody_eq_loop arr query_val th Strategy.binary arr.length _ _
    (List.get?_eq_get h0) (List.get?_eq_get hL) hlo hhi]
  obtain ⟨i, c1, hrun, hcount⟩ := searchLoop_binary_count arr query_val th hs
    arr.length 0 ((arr.length : Int) - 1) ⟨0, 0, 0⟩
    ⟨le_rfl, by omega, k, by omega, by omega,
      by rw [List.get?_eq_get hk, hkq]⟩ (by omega)
  refine ⟨i, c1, hrun, ?_⟩
  rw [show (((arr.length : Int) - 1) - 0).toNat + 1 = arr.length by omega]
    at hcount
  simpa using hcount

/-- C4 witness: the binary search for 7 in [1,3,5,7,9,11] takes at most
`⌈log2 6⌉` guesses. -/
theorem C4_witness :
    ∃ i c, searchBody [1, 3, 5, 7, 9, 11] 7 (1/4) Strategy.binary 6 =
        .ok i c ∧
      c.search_count ≤ Nat.clog 2 6 :=
  C4_binary_step_count_bound [1, 3, 5, 7, 9, 11] 7 (1/4) (by decide)
    (by decide)

/-- C5: on a sequence made of one repeated value, searching for that value
returns index 0 from the degenerate-window check taken at the start of the
first iteration, with all three step counters still 0, for every strategy
and threshold. -/
theorem C5_uniform_array_returns_zero (arr : List Int) (v : Int) (th : ℚ)
    (strat : Strategy) (fuel : Nat) (hne : arr ≠ [])
    (hall : ∀ x ∈ arr, x = v) (hf : 0 < fuel) :
    searchBody arr v th strat fuel = .ok 0 ⟨0, 0, 0⟩ := by
  have h0 : 0 < arr.length := List.length_pos.mpr hne
  have hL : arr.length - 1 < arr.length := by omega
  have ha0 : arr.get ⟨0, h0⟩ = v := hall _ (arr.get_mem _ _)
  have haL : arr.get ⟨arr.length - 1, hL⟩ = v := hall _ (arr.get_mem _ _)
  rw [searchBody_eq_loop arr v th strat fuel v v
    (by rw [List.get?_eq_get h0, ha0]) (by rw [List.get?_eq_get hL, haL])
    le_rfl le_rfl]
  obtain ⟨f, rfl⟩ : ∃ f, fuel = f + 1 := ⟨fuel - 1, by omega⟩
  have hpy0 : pyGet arr 0 = some v := by
    rw [pyGet_eq_get? arr 0 le_rfl]
    rw [show ((0 : Int)).toNat = 0 by omega, List.get?_eq_get h0, ha0]
  have hpyL : pyGet arr ((arr.length : Int) - 1) = some v := by
    rw [pyGet_eq_get? arr _ (by omega)]
    rw [show ((arr.length : Int) - 1).toNat = arr.length - 1 by omega,
      List.get?_eq_get hL, haL]
  have hstep : searchStep arr v th strat 0 ((arr.length : Int) - 1)
      (match strat with
       | .binary => Mode.binary
       | _ => Mode.interpolation) ⟨0, 0, 0⟩ = .done (.ok 0 ⟨0, 0, 0⟩) := by
    simp [searchStep, hpy0, hpyL]
  simp only [searchLoop, hstep]

/-- C5 witness: Scenario B, searching 5 in [5,5,5,5] under the mixed
strategy. -/
theorem C5_witness :
    searchBody [5, 5, 5, 5] 5 (1/4) Strategy.mixed 4 = .ok 0 ⟨0, 0, 0⟩ :=
  C5_uniform_array_returns_zero [5, 5, 5, 5] 5 (1/4) Strategy.mixed 4
    (by decide) (by decide) (by decide)

/-- C2: for a non-empty (sorted) sequence, `search` raises the out-of-range
error exactly when the query value is below the first element or above the
last one (which are the minimum and maximum of the sequence), it does so with
all step counters still 0, and this is the only way that error arises, for
every strategy, threshold and fuel. -/
theorem C2_out_of_range_error_iff (arr : List Int) (query_val : Int)
    (th : ℚ) (strat : Strategy) (fuel : Nat)
    (hs : List.Sorted (· ≤ ·) arr) (hne : arr ≠ []) :
    ((∃ c, searchBody arr query_val th strat fuel = .err .outOfRange c) ↔
      (query_val < arr.head hne ∨ arr.getLast hne < query_val)) ∧
    (∀ c, searchBody arr query_val th strat fuel = .err .outOfRange c →
      c = ⟨0, 0, 0⟩) ∧
    (∀ x ∈ arr, arr.head hne ≤ x ∧ x ≤ arr.getLast hne) := by
  have h0 : 0 < arr.length := List.length_pos.mpr hne
  have hL : arr.length - 1 < arr.length := by omega
  have hhead : arr.head hne = arr.get ⟨0, h0⟩ := by
    rw [List.head_eq_getElem]
    rfl
  have hlast : arr.getLast hne = arr.get ⟨arr.length - 1, hL⟩ := by
    rw [List.getLast_eq_getElem]
    rfl
  have hminmax : ∀ x ∈ arr, arr.head hne ≤ x ∧ x ≤ arr.getLast hne := by
    intro x hx
    obtain ⟨⟨k, hk⟩, hkx⟩ := List.mem_iff_get.mp hx
    rw [hhead, hlast, ← hkx]
    exact ⟨sorted_get_le hs (Nat.zero_le k) hk, sorted_get_le hs (by omega) hL⟩
  by_cases hin : query_val ≥ arr.get ⟨0, h0⟩ ∧ query_val ≤ arr.get ⟨arr.length - 1, hL⟩
  · have hbody := searchBody_eq_loop arr query_val th strat fuel _ _
      (List.get?_eq_get h0) (List.get?_eq_get hL) hin.1 hin.2
    refine ⟨?_, ?_, hminmax⟩
    · rw [hbody]
      constructor
      · rintro ⟨c, hc⟩
        exact absurd hc (searchLoop_no_outOfRange arr query_val th strat
          fuel 0 _ _ _ c)
      · intro hcon
        rw [hhead, hlast] at hcon
        obtain ⟨h1, h2⟩ := hin
        rcases hcon with h | h
        · omega
        · omega
    · intro c hc
      rw [hbody] at hc
      exact absurd hc (searchLoop_no_outOfRange arr query_val th strat
        fuel 0 _ _ _ c)
  · have hpy0 : pyGet arr 0 = some (arr.get ⟨0, h0⟩) := by
      rw [pyGet_eq_get? arr 0 le_rfl]
      exact List.get?_eq_get h0
    have hpyL : pyGet arr ((arr.length : Int) - 1) =
        some (arr.get ⟨arr.length - 1, hL⟩) := by
      rw [pyGet_eq_get? arr _ (by omega),
        show ((arr.length : Int) - 1).toNat = arr.length - 1 by omega]
      exact List.get?_eq_get hL
    have hbody : searchBody arr query_val th strat fuel =
        .err .outOfRange ⟨0, 0, 0⟩ := by
      simp only [searchBody, hpy0, hpyL, if_neg hin]
    refine ⟨?_, ?_, hminmax⟩
    · rw [hbody, hhead, hlast]
      constructor
      · intro _
        rw [not_and_or] at hin
        rcases hin with h | h
        · left
          omega
        · right
          omega
      · intro _
        exact ⟨⟨0, 0, 0⟩, rfl⟩
    · intro c hc
      rw [hbody] at hc
      injection hc with e1 e2
      exact e2.symm

/-- C2 witness: Scenario E, query 5 against [10,20,30] raises the
out-of-range error with zeroed counters. -/
theorem C2_witness :
    ∃ c, searchBody [10, 20, 30] 5 (1/4) Strategy.mixed 3 =
        .err .outOfRange c ∧ c = (⟨0, 0, 0⟩ : Counters) := by
  obtain ⟨c, hc⟩ := ((C2_out_of_range_error_iff [10, 20, 30] 5 (1/4)
    Strategy.mixed 3 (by decide) (by decide)).1).mpr (Or.inl (by decide))
  exact ⟨c, hc, (C2_out_of_range_error_iff [10, 20, 30] 5 (1/4)
    Strategy.mixed 3 (by decide) (by decide)).2.1 c hc⟩

/-- Floor division by a positive integer is the floor of the exact rational
quotient. -/
lemma fdiv_eq_floor_div (a b : Int) (hb : 0 < b) :
    a.fdiv b = ⌊(a : ℚ) / (b : ℚ)⌋ := by
  rw [Int.fdiv_eq_ediv a hb.le]
  symm
  rw [Int.floor_eq_iff]
  have hbq : (0 : ℚ) < (b : ℚ) := by exact_mod_cast hb
  constructor
  · rw [le_div_iff₀ hbq]
    exact_mod_cast Int.ediv_mul_le a hb.ne'
  · rw [div_lt_iff₀ hbq]
    exact_mod_cast Int.lt_ediv_add_one_mul_self a hb

/-- C6: when the mode is interpolation and the window's end values differ (as
after the degenerate-window check), the guess is
`bottomIndex + floor((top − bottom) × (query − a[bottom]) / (a[top] − a[bottom]))`
with a true floor (rounding toward negative infinity) and a nonzero divisor. -/
theorem C6_interpolation_guess_formula (arr : List Int) (query_val : Int)
    (idx_bottom idx_top : Nat) (top_val bottom_val : Int)
    (hs : List.Sorted (· ≤ ·) arr) (hbt : idx_bottom ≤ idx_top)
    (hTop : arr.get? idx_top = some top_val)
    (hBot : arr.get? idx_bottom = some bottom_val)
    (hneq : top_val ≠ bottom_val) :
    idx_guess_val top_val bottom_val query_val (idx_top : Int)
        (idx_bottom : Int) Mode.interpolation =
      (idx_bottom : Int) +
        ⌊(((idx_top : ℚ) - (idx_bottom : ℚ)) *
            ((query_val : ℚ) - (bottom_val : ℚ))) /
          ((top_val : ℚ) - (bottom_val : ℚ))⌋ ∧
    top_val - bottom_val ≠ 0 := by
  obtain ⟨hT, hTv⟩ := List.get?_eq_some.mp hTop
  obtain ⟨hB, hBv⟩ := List.get?_eq_some.mp hBot
  have hle : bottom_val ≤ top_val := by
    rw [← hTv, ← hBv]
    exact sorted_get_le hs hbt hT
  have hlt : bottom_val < top_val := lt_of_le_of_ne hle (Ne.symm hneq)
  have hd : (0 : Int) < top_val - bottom_val := by omega
  refine ⟨?_, by omega⟩
  simp only [idx_guess_val]
  rw [fdiv_eq_floor_div _ _ hd, add_comm]
  congr 2
  push_cast
  ring

/-- C6 witness: the interpolation guess for query 2 on the window [0,1] of
[1,3] follows the floor formula with nonzero divisor. -/
theorem C6_witness :
    idx_guess_val 3 1 2 ((1 : Nat) : Int) ((0 : Nat) : Int)
        Mode.interpolation =
      ((0 : Nat) : Int) +
        ⌊((((1 : Nat) : ℚ) - ((0 : Nat) : ℚ)) *
            (((2 : Int) : ℚ) - ((1 : Int) : ℚ))) /
          (((3 : Int) : ℚ) - ((1 : Int) : ℚ))⌋ ∧
    (3 : Int) - 1 ≠ 0 :=
  C6_interpolation_guess_formula [1, 3] 2 0 1 3 1 (by decide) (by decide)
    (by decide) (by decide) (by decide)

/-- C7: the mode-switch policy.  After a binary step the next mode is
interpolation unconditionally; after an interpolation step it is binary
exactly when the eliminated fraction is below the threshold.  A non-mixed
strategy never changes the mode across an iteration, and under the mixed
strategy a non-terminal iteration applies the policy to the elimination
fraction computed from the pre-update bounds (denominator
`(idx_top + 1) - idx_bottom`). -/
theorem C7_mode_switch_policy :
    (∀ (th e : ℚ), set_search_mode th e Mode.binary = Mode.interpolation) ∧
    (∀ (th e : ℚ), set_search_mode th e Mode.interpolation =
      if e < th then Mode.binary else Mode.interpolation) ∧
    (∀ (arr : List Int) (q : Int) (th : ℚ) (strat : Strategy)
      (b t : Int) (m : Mode) (c : Counters) (b1 t1 : Int) (m1 : Mode)
      (c1 : Counters), strat ≠ Strategy.mixed →
      searchStep arr q th strat b t m c = .next b1 t1 m1 c1 → m1 = m) ∧
    (∀ (arr : List Int) (q : Int) (th : ℚ) (b t : Int) (m : Mode)
      (c : Counters) (top_val bottom_val guess_val : Int),
      pyGet arr t = some top_val → pyGet arr b = some bottom_val →
      top_val ≠ bottom_val →
      pyGet arr (idx_guess_val top_val bottom_val q t b m) = some guess_val →
      guess_val ≠ q → (t + 1) - b ≠ 0 →
      searchStep arr q th Strategy.mixed b t m c =
        if guess_val < q then
          .next (idx_guess_val top_val bottom_val q t b m + 1) t
            (set_search_mode th
              (calc_array_elimination_low
                (idx_guess_val top_val bottom_val q t b m) t b) m)
            (bump_counters c m)
        else
          .next b (idx_guess_val top_val bottom_val q t b m - 1)
            (set_search_mode th
              (calc_array_elimination_high
                (idx_guess_val top_val bottom_val q t b m) t b) m)
            (bump_counters c m)) := by
  refine ⟨fun th e => rfl, fun th e => rfl, ?_, ?_⟩
  · intro arr q th strat b t m c b1 t1 m1 c1 hstrat hstep
    unfold searchStep at hstep
    dsimp only at hstep
    repeat' split at hstep
    all_goals cases hstep
    all_goals rfl
  · intro arr q th b t m c top_val bottom_val guess_val hT hB hneq hG hgq hz
    simp only [searchStep, hT, hB, if_neg hneq, hG, if_neg hgq, if_neg hz,
      if_pos (rfl : Strategy.mixed = Strategy.mixed), if_true]

/-- C7 witness: a non-mixed (here: binary-strategy) iteration leaves the mode
unchanged, instantiated on a concrete step of [1,3]. -/
theorem C7_witness : Mode.interpolation = Mode.interpolation ∧
    set_search_mode (1/4) (1/8) Mode.interpolation = Mode.binary := by
  constructor
  · exact C7_mode_switch_policy.2.2.1 [1, 3] 2 (1/4) Strategy.binary 0 1
      Mode.interpolation ⟨0, 0, 0⟩ 1 1 Mode.interpolation ⟨1, 1, 0⟩
      (by decide) (by decide)
  · rw [C7_mode_switch_policy.2.1 (1/4) (1/8),
      if_pos (by norm_num : (1/8 : ℚ) < 1/4)]

/-- The comparison loop threads the searcher through successive searches
without ever touching the stored array. -/
lemma runComparisons_array (query_val : Int) (fuel : Nat) :
    ∀ (runs : List (Strategy × Option ℚ)) (s : ArraySearcher),
      (runComparisons query_val fuel runs s).1.array = s.array := by
  intro runs
  induction runs with
  | nil =>
    intro s
    rfl
  | cons p rest ih =>
    intro s
    obtain ⟨strat, th⟩ := p
    simp only [runComparisons]
    rcases hout : (ArraySearcher.search s query_val (th.getD (1/4)) strat
        fuel).2 with ⟨i, c⟩ | ⟨e, c⟩ | c
    all_goals simp only [hout]
    · exact ih _
    · rfl
    · rfl

/-- C8: the stored sequence is an ascending-sorted rearrangement of the
construction input, and neither `search` nor `compare_methods` ever changes
it. -/
theorem C8_array_sorted_and_immutable :
    (∀ input : List Int,
      List.Sorted (· ≤ ·) (ArraySearcher.init input).array ∧
      (ArraySearcher.init input).array.Perm input) ∧
    (∀ (s : ArraySearcher) (query_val : Int) (th : ℚ) (strat : Strategy)
      (fuel : Nat),
      (ArraySearcher.search s query_val th strat fuel).1.array = s.array) ∧
    (∀ (s : ArraySearcher) (query_val : Int)
      (mixed_thresholds : Option (List ℚ)) (fuel : Nat),
      (ArraySearcher.compare_methods s query_val mixed_thresholds
        fuel).1.array = s.array) := by
  refine ⟨?_, ?_, ?_⟩
  · intro input
    exact ⟨List.sorted_insertionSort (· ≤ ·) input,
      List.perm_insertionSort (· ≤ ·) input⟩
  · intro s query_val th strat fuel
    rfl
  · intro s query_val mixed_thresholds fuel
    exact runComparisons_array query_val fuel _ s

/-- C9: a query value inside the sequence's range but absent from it can make
`search` terminate normally with an index whose element differs from the
query: on [1,3] with query 2 the loop ends in the degenerate-window branch
and returns index 1, holding 3, without checking it against the query. -/
theorem C9_absent_value_wrong_index :
    searchBody [1, 3] 2 (1/4) Strategy.mixed 2 = .ok 1 ⟨1, 1, 0⟩ ∧
    pyGet [1, 3] 1 = some 3 ∧ (2 : Int) ∉ [(1 : Int), 3] ∧
    (1 : Int) ≤ 2 ∧ (2 : Int) ≤ 3 ∧
    List.Sorted (· ≤ ·) [1, 3] := by
  decide

/-- C10: a searcher built from the empty collection fails every search with
the index error from reading element 0 of the empty sequence during the
range check, never with the documented out-of-range error, for every query
value, threshold, strategy and fuel. -/
theorem C10_empty_array_index_error (query_val : Int) (th : ℚ)
    (strat : Strategy) (fuel : Nat) :
    (ArraySearcher.init []).array = [] ∧
    searchBody (ArraySearcher.init []).array query_val th strat fuel =
      .err .indexError ⟨0, 0, 0⟩ ∧
    ∀ c, searchBody (ArraySearcher.init []).array query_val th strat fuel ≠
      .err .outOfRange c := by
  refine ⟨rfl, rfl, ?_⟩
  intro c hc
  have hbody : searchBody (ArraySearcher.init []).array query_val th strat
      fuel = .err .indexError ⟨0, 0, 0⟩ := rfl
  rw [hbody] at hc
  simp at hc

/-- C8 witness: a concrete search leaves the stored (sorted) array of a
searcher built from [3,1,2] unchanged. -/
theorem C8_witness :
    (ArraySearcher.search (ArraySearcher.init [3, 1, 2]) 2 (1/4)
      Strategy.mixed 5).1.array = (ArraySearcher.init [3, 1, 2]).array :=
  C8_array_sorted_and_immutable.2.1 (ArraySearcher.init [3, 1, 2]) 2 (1/4)
    Strategy.mixed 5

/-- C10 witness: the concrete empty-searcher call raises the index error
with zeroed counters. -/
theorem C10_witness :
    searchBody (ArraySearcher.init []).array 5 (1/4) Strategy.mixed 3 =
      .err .indexError ⟨0, 0, 0⟩ :=
  (C10_empty_array_index_error 5 (1/4) Strategy.mixed 3).2.1

end InterpolationSearch
